import Mathlib

/-!
# Verification of the V1-Quiz-Master core (models.py / routes.py)

Shallow embedding of the quiz application's data model, attempt engine and
statistics aggregator, translated from `src/models.py` and `src/routes.py`.

Modelling conventions:
* SQLAlchemy rows become Lean structures; the database session becomes an
  explicit `DB` state record.  Auto-increment primary keys are modelled by a
  `next_score_id` counter.
* Python strings are modelled as `List Char` (`Str` below); only Unicode
  scalar values exist in Lean's `Char`, which matches every string this
  application can persist.
* Python `float` arithmetic inside `round(..., 2)` is abstracted to exact
  rationals; `round(x, 2)` is modelled as decimal rounding half-to-even
  (CPython's documented behaviour).  Every concrete input used in a
  counterexample below is chosen so that the intermediate float value is
  binary-exact, where the float and rational semantics provably coincide
  (e.g. `1/32 * 100 = 3.125` is an exact double).
* Python `int(...)` on a string is modelled for ASCII input (optional
  surrounding whitespace, optional sign, digits with single underscores
  between digits); a failed parse models the `ValueError` the route would
  raise.
* `json.dumps` / `json.loads` are modelled at the string level for the
  fragment the application persists: an object whose values are strings or
  `null`, rendered with `ensure_ascii`-style escaping exactly as
  `json.dumps` emits it.
-/

namespace QuizMaster

/-- Python strings, modelled as lists of unicode scalar characters. -/
abbrev Str := List Char

/-! ## Python numeric helpers -/

/-- Floor of a rational, in kernel-computable form (`Int.fdiv` rounds toward
negative infinity); `ratFloor_eq_floor` below identifies it with `⌊·⌋`. -/
def ratFloor (x : ℚ) : ℤ := x.num.fdiv (x.den : ℤ)

/-- Round a rational to the nearest integer, ties to even: the rounding mode
of CPython's `round` builtin (banker's rounding). -/
def rheInt (x : ℚ) : ℤ :=
  let f := ratFloor x
  let r := x - (f : ℚ)
  if r < 1/2 then f
  else if 1/2 < r then f + 1
  else if f % 2 = 0 then f else f + 1

/-- Model of Python `round(x, 2)`: round half-to-even at two decimal places. -/
def round2e (x : ℚ) : ℚ := (rheInt (x * 100) : ℚ) / 100

/-- Rounding half-up at two decimal places.  This is what the specification's
words "rounded half-up to 2 decimal places" describe; it is NOT what the code
computes, and is defined only to compare the spec against the source. -/
def roundHalfUp2 (x : ℚ) : ℚ := ((ratFloor (x * 100 + 1/2) : ℤ) : ℚ) / 100

/-- ASCII digit character of `d % 10`. -/
def digitChar (d : Nat) : Char := Char.ofNat ('0'.toNat + d % 10)

/-- Decimal rendering worker, fuelled to keep it structural (any fuel above
the number works; see `natStrAux_fuel`). -/
def natStrAux : Nat → Nat → Str
  | 0, _ => []
  | fuel + 1, n =>
      if n < 10 then [digitChar n]
      else natStrAux fuel (n / 10) ++ [digitChar (n % 10)]

/-- Model of Python `str` on a natural number (decimal rendering). -/
def natStr (n : Nat) : Str := natStrAux (n + 1) n

/-- The whitespace characters stripped by Python `int(...)` (ASCII fragment). -/
def isPySpace (c : Char) : Bool :=
  c = ' ' || c = '\t' || c = '\n' || c = '\x0d' || c = '\x0b' || c = '\x0c'

/-- `c` is an ASCII decimal digit (code points 48-57). -/
def isDigitChar (c : Char) : Bool := 48 ≤ c.toNat && c.toNat ≤ 57

/-- Numeric value of an ASCII digit. -/
def digitVal (c : Char) : Nat := c.toNat - '0'.toNat

/-- Digit tail of a Python integer literal: `(underscore? digit)*`, with each
underscore standing between two digits. -/
def pyDigitsAux : Str → Nat → Option Nat
  | [], acc => some acc
  | c :: rest, acc =>
    if c = '_' then
      match rest with
      | [] => none
      | c2 :: rest2 =>
          if isDigitChar c2 then pyDigitsAux rest2 (acc * 10 + digitVal c2) else none
    else if isDigitChar c then pyDigitsAux rest (acc * 10 + digitVal c) else none

/-- Unsigned part of a Python integer literal: at least one digit, then
`pyDigitsAux`. -/
def pyIntDigits : Str → Option Nat
  | [] => none
  | c :: rest => if isDigitChar c then pyDigitsAux rest (digitVal c) else none

/-- Strip leading and trailing Python whitespace. -/
def pyStrip (s : Str) : Str :=
  (((s.dropWhile isPySpace).reverse.dropWhile isPySpace).reverse)

/-- Model of Python `int(s)` for ASCII input: `some n` on success, `none`
models the `ValueError` raised on a malformed literal. -/
def pyInt (s : Str) : Option Int :=
  match pyStrip s with
  | [] => none
  | c :: rest =>
    if c = '+' then (pyIntDigits rest).map (fun n => (n : Int))
    else if c = '-' then (pyIntDigits rest).map (fun n => -(n : Int))
    else (pyIntDigits (c :: rest)).map (fun n => (n : Int))

/-! ## Data model (`src/models.py`) -/

/-- `Subject` row (`models.py`): only the fields the verified core reads. -/
structure Subject where
  id : Nat
  name : Str
deriving DecidableEq

/-- `Chapter` row (`models.py`). -/
structure Chapter where
  id : Nat
  subject_id : Nat
deriving DecidableEq

/-- `Quiz` row (`models.py`); `date_of_quiz` as a day number. -/
structure Quiz where
  id : Nat
  chapter_id : Nat
  date_of_quiz : Int
deriving DecidableEq

/-- `Question` row (`models.py`). -/
structure Question where
  id : Nat
  quiz_id : Nat
  correct_option : Int
deriving DecidableEq

/-- `Score` row (`models.py`): `answers` is the nullable `Text` column that
holds the JSON-serialized answer map (`none` = SQL NULL). -/
structure Score where
  id : Nat
  quiz_id : Nat
  user_id : Nat
  time_stamp : Int
  total_scored : Int
  total_questions : Int
  answers : Option Str
deriving DecidableEq

/-- `Score.percentage` (`models.py` lines 85-88):
`0` when `total_questions == 0`, otherwise
`round((total_scored / total_questions) * 100, 2)`. -/
def Score.percentage (s : Score) : ℚ :=
  if s.total_questions = 0 then 0
  else round2e ((s.total_scored : ℚ) / (s.total_questions : ℚ) * 100)

/-- The database state: the tables the verified core touches, the
auto-increment counter for `Score.id`, and the current day (`date.today()`). -/
structure DB where
  users : List Nat
  subjects : List Subject
  chapters : List Chapter
  quizzes : List Quiz
  questions : List Question
  scores : List Score
  next_score_id : Nat
  today : Int

/-! ## JSON serialization (`json.dumps` / `json.loads` fragment)

The application persists exactly one JSON shape: an object whose keys are
strings and whose values are strings or `null` (`Score.set_answers`).  The
renderer below reproduces `json.dumps`'s default output for that shape
(separators `", "` and `": "`, `ensure_ascii` escaping); the parser models
`json.loads` on the same fragment. -/

/-- Lower-case hex digit, as emitted by `json.dumps`'s `\uXXXX` escapes. -/
def hexChar (n : Nat) : Char :=
  Char.ofNat (if n < 10 then 48 + n else 87 + n)

/-- Four-digit lower-case hex rendering of `n < 0x10000`. -/
def hex4 (n : Nat) : Str :=
  [hexChar (n / 4096 % 16), hexChar (n / 256 % 16), hexChar (n / 16 % 16), hexChar (n % 16)]

/-- `json.dumps` escaping of one character (`ensure_ascii=True`): `"` and `\`
are backslash-escaped, the named control escapes are used for `\b \t \n \f \r`,
every other character outside `0x20..0x7e` becomes `\uXXXX` (a surrogate pair
above the BMP). -/
def escChar (c : Char) : Str :=
  if c = '"' then ['\\', '"']
  else if c = '\\' then ['\\', '\\']
  else if c = '\x08' then ['\\', 'b']
  else if c = '\t' then ['\\', 't']
  else if c = '\n' then ['\\', 'n']
  else if c = '\x0c' then ['\\', 'f']
  else if c = '\x0d' then ['\\', 'r']
  else if 0x20 ≤ c.toNat && c.toNat ≤ 0x7e then [c]
  else if c.toNat < 0x10000 then '\\' :: 'u' :: hex4 c.toNat
  else
    '\\' :: 'u' :: hex4 (0xd800 + (c.toNat - 0x10000) / 1024) ++
      ('\\' :: 'u' :: hex4 (0xdc00 + (c.toNat - 0x10000) % 1024))

/-- Rendering of a JSON string literal. -/
def renderStr (s : Str) : Str := '"' :: (s.flatMap escChar ++ ['"'])

/-- Rendering of an object value: a string or `null`. -/
def renderVal : Option Str → Str
  | none => ['n', 'u', 'l', 'l']
  | some s => renderStr s

/-- Rendering of one `"key": value` member. -/
def renderMember (kv : Str × Option Str) : Str :=
  renderStr kv.1 ++ ':' :: ' ' :: renderVal kv.2

/-- `json.dumps` on an object with string-or-null values, in insertion
order, with default separators. -/
def jsonDumps (m : List (Str × Option Str)) : Str :=
  match m with
  | [] => ['\x7b', '\x7d']
  | e :: es =>
      '\x7b' :: (renderMember e ++ es.flatMap (fun kv => ',' :: ' ' :: renderMember kv)
        ++ ['\x7d'])

/-- The whitespace `json.loads` skips between tokens. -/
def isJsonWs (c : Char) : Bool := c = ' ' || c = '\t' || c = '\n' || c = '\x0d'

/-- Value of one hex digit (either case), as accepted in `\uXXXX`. -/
def hexVal (c : Char) : Option Nat :=
  let n := c.toNat
  if 48 ≤ n ∧ n ≤ 57 then some (n - 48)
  else if 97 ≤ n ∧ n ≤ 102 then some (n - 87)
  else if 65 ≤ n ∧ n ≤ 70 then some (n - 55)
  else none

/-- Decode table for the single-character backslash escapes accepted by
`json.loads`. -/
def escDecode1 (e : Char) : Option Char :=
  if e = '"' then some '"'
  else if e = '\\' then some '\\'
  else if e = '/' then some '/'
  else if e = 'b' then some '\x08'
  else if e = 't' then some '\t'
  else if e = 'n' then some '\n'
  else if e = 'f' then some '\x0c'
  else if e = 'r' then some '\x0d'
  else none

/-- Combined value of four hex digits. -/
def hex4Val (h1 h2 h3 h4 : Char) : Option Nat :=
  match hexVal h1, hexVal h2, hexVal h3, hexVal h4 with
  | some d1, some d2, some d3, some d4 => some (4096 * d1 + 256 * d2 + 16 * d3 + d4)
  | _, _, _, _ => none

/-- Worker for parsing the body of a JSON string literal (after the opening
quote) up to the closing quote, decoding escapes; returns the decoded string
and the rest of the input.  Fuelled to keep the recursion structural: each
step consumes at least one character, so any fuel above the input length
gives the same answer (`parseStrBodyF_fuel`).  Lone `\uXXXX` surrogates are
outside the modelled fragment (Lean characters are unicode scalars) and are
rejected. -/
def parseStrBodyF : Nat → Str → Option (Str × Str)
  | 0, _ => none
  | _ + 1, [] => none
  | fuel + 1, c :: rest =>
    if c = '"' then some ([], rest)
    else if c = '\\' then
      match rest with
      | [] => none
      | e :: rest' =>
        match escDecode1 e with
        | some d => (parseStrBodyF fuel rest').map (fun p => (d :: p.1, p.2))
        | none =>
          if e = 'u' then
            match rest' with
            | h1 :: h2 :: h3 :: h4 :: rest'' =>
              match hex4Val h1 h2 h3 h4 with
              | some n =>
                if n < 0xd800 then
                  (parseStrBodyF fuel rest'').map (fun p => (Char.ofNat n :: p.1, p.2))
                else if 0xe000 ≤ n ∧ n < 0x110000 then
                  (parseStrBodyF fuel rest'').map (fun p => (Char.ofNat n :: p.1, p.2))
                else none
              | none => none
            | _ => none
          else none
    else if c.toNat < 0x20 then none
    else (parseStrBodyF fuel rest).map (fun p => (c :: p.1, p.2))

/-- Parse the body of a JSON string literal. -/
def parseStrBody (s : Str) : Option (Str × Str) := parseStrBodyF (s.length + 1) s

/-- Parse one object value of the persisted fragment: a string literal or
`null`. -/
def parseVal (s : Str) : Option (Option Str × Str) :=
  match s with
  | 'n' :: 'u' :: 'l' :: 'l' :: rest => some (none, rest)
  | '"' :: rest => (parseStrBody rest).map (fun p => (some p.1, p.2))
  | _ => none

/-- Python `dict` upsert: replace the value in place if the key is present
(keeping its position), otherwise append the binding. -/
def dictInsert : List (Str × Option Str) → Str → Option Str → List (Str × Option Str)
  | [], k, v => [(k, v)]
  | (k', v') :: rest, k, v =>
      if k' = k then (k', v) :: rest else (k', v') :: dictInsert rest k v

/-- Build a Python `dict` from parsed members in order (later duplicate keys
overwrite in place, as `json.loads` does). -/
def dictOfMembers (ms : List (Str × Option Str)) : List (Str × Option Str) :=
  ms.foldl (fun d kv => dictInsert d kv.1 kv.2) []

/-- Parse the members of an object after its opening brace (fuelled; the fuel
only needs to exceed the member count). -/
def parseMembers : Nat → Str → Option (List (Str × Option Str) × Str)
  | 0, _ => none
  | fuel + 1, s =>
    match (s.dropWhile isJsonWs) with
    | '"' :: rest =>
      match parseStrBody rest with
      | none => none
      | some (k, rest1) =>
        match (rest1.dropWhile isJsonWs) with
        | ':' :: rest2 =>
          match parseVal (rest2.dropWhile isJsonWs) with
          | none => none
          | some (v, rest3) =>
            match (rest3.dropWhile isJsonWs) with
            | ',' :: rest4 =>
              (parseMembers fuel rest4).map (fun p => ((k, v) :: p.1, p.2))
            | '\x7d' :: rest4 => some ([(k, v)], rest4)
            | _ => none
        | _ => none
    | _ => none

/-- `json.loads` on the persisted fragment: a single object whose values are
strings or `null`; anything else (including trailing garbage) is a parse
error, modelled as `none`. -/
def jsonLoads (s : Str) : Option (List (Str × Option Str)) :=
  match (s.dropWhile isJsonWs) with
  | '\x7b' :: rest =>
    match (rest.dropWhile isJsonWs) with
    | '\x7d' :: rest1 => if rest1.dropWhile isJsonWs = [] then some [] else none
    | _ =>
      match parseMembers (rest.length + 1) rest with
      | none => none
      | some (ms, rest1) =>
          if rest1.dropWhile isJsonWs = [] then some (dictOfMembers ms) else none
  | _ => none

/-- `Score.get_answers` (`models.py` lines 90-94): a falsy `answers` column
(SQL NULL or the empty string) yields the empty dict, otherwise the column is
parsed with `json.loads`; `none` models a raised exception. -/
def Score.get_answers (s : Score) : Option (List (Str × Option Str)) :=
  match s.answers with
  | none => some []
  | some t => if t = [] then some [] else jsonLoads t

/-- `Score.set_answers` (`models.py` lines 96-98): store the JSON rendering
of the answer dict. -/
def Score.set_answers (s : Score) (m : List (Str × Option Str)) : Score :=
  { s with answers := some (jsonDumps m) }

/-! ## Quiz attempt engine (`routes.py`, `attempt_quiz`, lines 462-514) -/

/-- `Quiz.query.get(quiz_id)` / `get_or_404`. -/
def quizGet (db : DB) (id : Nat) : Option Quiz := db.quizzes.find? (fun q => q.id = id)

/-- `Chapter.query.get(chapter_id)`. -/
def chapterGet (db : DB) (id : Nat) : Option Chapter :=
  db.chapters.find? (fun c => c.id = id)

/-- `Subject.query.get(subject_id)`. -/
def subjectGet (db : DB) (id : Nat) : Option Subject :=
  db.subjects.find? (fun s => s.id = id)

/-- `Score.query.filter_by(quiz_id=quiz_id, user_id=current_user.id).first()`. -/
def firstScoreFor (db : DB) (user_id quiz_id : Nat) : Option Score :=
  db.scores.find? (fun s => s.quiz_id = quiz_id && s.user_id = user_id)

/-- `Question.query.filter_by(quiz_id=quiz_id).all()`. -/
def questionsFor (db : DB) (quiz_id : Nat) : List Question :=
  db.questions.filter (fun q => q.quiz_id = quiz_id)

/-- The grading loop of `attempt_quiz` (lines 486-498): walks the quiz's
questions, reads `request.form.get(f'question_{id}')`, increments the score
on `user_answer and int(user_answer) == question.correct_option`, and records
the raw submitted value in the `user_answers` dict.  `none` models the
`ValueError` that `int` raises on a nonempty non-integer submission, which
aborts the request before anything is persisted. -/
def gradeFold (form : Nat → Option Str) :
    List Question → Int → List (Str × Option Str) → Option (Int × List (Str × Option Str))
  | [], total, dict => some (total, dict)
  | q :: rest, total, dict =>
    match form q.id with
    | none => gradeFold form rest total (dictInsert dict (natStr q.id) none)
    | some s =>
      if s = [] then gradeFold form rest total (dictInsert dict (natStr q.id) (some s))
      else
        match pyInt s with
        | none => none
        | some n =>
            gradeFold form rest (if n = q.correct_option then total + 1 else total)
              (dictInsert dict (natStr q.id) (some s))

/-- All data the route computes before touching the session: the graded
result waiting to be committed. -/
structure Pending where
  user_id : Nat
  quiz_id : Nat
  total_scored : Int
  total_questions : Int
  answers : List (Str × Option Str)
deriving DecidableEq

/-- Outcome of the read phase of `attempt_quiz` (everything up to and
including grading; no writes). -/
inductive CheckResult where
  | notFound
  | notAvailable
  | alreadyAttempted (score_id : Nat)
  | noQuestions
  | renderForm
  | valueError
  | ok (p : Pending)
deriving DecidableEq

/-- Read phase of `attempt_quiz` (lines 465-498): 404 lookup, availability
check (`quiz.date_of_quiz > date.today()`), duplicate-attempt check, empty
quiz check, form validation, grading. -/
def attemptCheck (db : DB) (user_id quiz_id : Nat) (validated : Bool)
    (form : Nat → Option Str) : CheckResult :=
  match quizGet db quiz_id with
  | none => .notFound
  | some quiz =>
    if db.today < quiz.date_of_quiz then .notAvailable
    else
      match firstScoreFor db user_id quiz_id with
      | some s => .alreadyAttempted s.id
      | none =>
        let qs := questionsFor db quiz_id
        if qs.isEmpty then .noQuestions
        else if validated then
          match gradeFold form qs 0 [] with
          | none => .valueError
          | some (total, dict) =>
              .ok ⟨user_id, quiz_id, total, (qs.length : Int), dict⟩
  else .renderForm

/-- Write phase of `attempt_quiz` (lines 500-509): build the `Score` row,
`set_answers`, `db.session.add`, `db.session.commit`; returns the new row's
id and the updated database. -/
def attemptInsert (db : DB) (p : Pending) : Nat × DB :=
  let score : Score :=
    Score.set_answers
      { id := db.next_score_id, quiz_id := p.quiz_id, user_id := p.user_id,
        time_stamp := db.today, total_scored := p.total_scored,
        total_questions := p.total_questions, answers := none }
      p.answers
  (db.next_score_id,
   { db with scores := db.scores ++ [score], next_score_id := db.next_score_id + 1 })

/-- Overall outcome of one `attempt_quiz` request. -/
inductive AttemptResult where
  | notFound
  | notAvailable
  | alreadyAttempted (score_id : Nat)
  | noQuestions
  | renderForm
  | valueError
  | submitted (score_id : Nat) (db' : DB)

/-- One whole `attempt_quiz` request, run in isolation: the read phase
followed (on success) by the write phase. -/
def attempt_quiz (db : DB) (user_id quiz_id : Nat) (validated : Bool)
    (form : Nat → Option Str) : AttemptResult :=
  match attemptCheck db user_id quiz_id validated form with
  | .notFound => .notFound
  | .notAvailable => .notAvailable
  | .alreadyAttempted sid => .alreadyAttempted sid
  | .noQuestions => .noQuestions
  | .renderForm => .renderForm
  | .valueError => .valueError
  | .ok p =>
      let r := attemptInsert db p
      .submitted r.1 r.2

/-! ## Statistics aggregator (`routes.py`, lines 32-129) -/

/-- One entry of the admin dashboard's `quiz_stats` list. -/
structure QuizStat where
  quiz_id : Nat
  avg_score : ℚ
  attempts : Nat
deriving DecidableEq

/-- The per-quiz entry built by `get_dashboard_stats` (lines 48-61): average
of `percentage()` over the quiz's scores (0 with 0 attempts when it has
none), rounded to two decimals. -/
def quizStatFor (db : DB) (qz : Quiz) : QuizStat :=
  let scores := db.scores.filter (fun s => s.quiz_id = qz.id)
  let avg : ℚ := if scores.isEmpty then 0
    else (scores.map Score.percentage).sum / (scores.length : ℚ)
  let attempts := if scores.isEmpty then 0 else scores.length
  ⟨qz.id, round2e avg, attempts⟩

/-- The sort key of `quiz_stats.sort(key=..., reverse=True)`: `b` may come
after `a` when `a`'s attempt count is at least `b`'s.  Python's sort is
stable, so the model uses the stable `mergeSort` with this relation. -/
def statLE (a b : QuizStat) : Bool := b.attempts ≤ a.attempts

/-- The fields of `get_dashboard_stats` (lines 32-74) covered by the
verified core.  (`recent_quizzes` / `recent_scores` are plain
creation-time-ordered truncations and are not modelled.) -/
structure DashboardStats where
  total_users : Nat
  total_subjects : Nat
  total_quizzes : Nat
  total_questions : Nat
  quiz_stats : List QuizStat

/-- `get_dashboard_stats`: entity counts plus the per-quiz stats, ranked by
attempt count descending (stable) and truncated to the top 5. -/
def get_dashboard_stats (db : DB) : DashboardStats :=
  { total_users := db.users.length,
    total_subjects := db.subjects.length,
    total_quizzes := db.quizzes.length,
    total_questions := db.questions.length,
    quiz_stats := ((db.quizzes.map (quizStatFor db)).mergeSort statLE).take 5 }

/-- `Score → Quiz → Chapter → Subject` traversal of `get_user_stats`
(lines 101-104); `none` models the `AttributeError` a dangling foreign key
would raise. -/
def subjectNameOf (db : DB) (s : Score) : Option Str :=
  (quizGet db s.quiz_id).bind fun qz =>
    (chapterGet db qz.chapter_id).bind fun ch =>
      (subjectGet db ch.subject_id).map fun sb => sb.name

/-- Python `dict` upsert for the subject accumulator (total, count). -/
def groupInsert : List (Str × (ℚ × Nat)) → Str → (ℚ × Nat) → List (Str × (ℚ × Nat))
  | [], k, v => [(k, v)]
  | (k', v') :: rest, k, v =>
      if k' = k then (k', v) :: rest else (k', v') :: groupInsert rest k v

/-- Lookup in the subject accumulator. -/
def groupFind (acc : List (Str × (ℚ × Nat))) (k : Str) : Option (ℚ × Nat) :=
  (acc.find? (fun kv => kv.1 = k)).map Prod.snd

/-- The `subject_scores` grouping loop of `get_user_stats` (lines 100-115):
attribute each score to its subject name and accumulate running total and
count in insertion order. -/
def subjectFold (db : DB) :
    List Score → List (Str × (ℚ × Nat)) → Option (List (Str × (ℚ × Nat)))
  | [], acc => some acc
  | s :: rest, acc =>
    match subjectNameOf db s with
    | none => none
    | some name =>
      let cur := (groupFind acc name).getD (0, 0)
      subjectFold db rest (groupInsert acc name (cur.1 + s.percentage, cur.2 + 1))

/-- The fields of `get_user_stats` (lines 76-129) covered by the verified
core.  (`recent_scores` / `upcoming_quizzes` are plain ordered truncations
and are not modelled.) -/
structure UserStats where
  avg_percentage : ℚ
  completed_quizzes : Nat
  completion_rate : ℚ
  subject_avg : List (Str × ℚ)
deriving DecidableEq

/-- `get_user_stats`: average percentage over the user's scores (0 if none),
completed count, completion rate (guarded against zero quizzes), and
per-subject averages, each rounded with Python `round(_, 2)`. -/
def get_user_stats (db : DB) (user_id : Nat) : Option UserStats :=
  let user_scores := db.scores.filter (fun s => s.user_id = user_id)
  let avg : ℚ := if user_scores.isEmpty then 0
    else (user_scores.map Score.percentage).sum / (user_scores.length : ℚ)
  let completed := user_scores.length
  let total_quizzes := db.quizzes.length
  (subjectFold db user_scores []).map fun groups =>
    { avg_percentage := round2e avg,
      completed_quizzes := completed,
      completion_rate :=
        if 0 < total_quizzes then round2e ((completed : ℚ) / (total_quizzes : ℚ) * 100)
        else 0,
      subject_avg := groups.map fun kv =>
        (kv.1, if 0 < kv.2.2 then round2e (kv.2.1 / (kv.2.2 : ℚ)) else 0) }

/-! ## Derived predicates and concrete instances used in the theorems -/

/-- The submitted option for one question clears the `int(...)` call of the
grading loop without raising: it is missing, the empty string (falsy, so
`int` is never reached), or a valid Python integer literal. -/
def answerParses : Option Str → Bool
  | none => true
  | some s => if s = [] then true else (pyInt s).isSome

/-- The integer value the grading comparison sees for a submitted option
(`none` when the option is missing or empty and the comparison short-circuits
to false). -/
def gradedValue : Option Str → Option Int
  | none => none
  | some s => if s = [] then none else pyInt s

/-- Number of `Score` rows for one (user, quiz) pair. -/
def numScoresFor (db : DB) (user_id quiz_id : Nat) : Nat :=
  (db.scores.filter (fun s => s.quiz_id = quiz_id && s.user_id = user_id)).length

/-- A score of 1 out of 32: its exact raw percentage is 3.125, an exact
midpoint at two decimals. -/
def scoreC4 : Score :=
  { id := 1, quiz_id := 1, user_id := 7, time_stamp := 0, total_scored := 1,
    total_questions := 32, answers := none }

/-- A minimal state: one available quiz (scheduled today) with one question
whose correct option is 1, and no scores. -/
def raceDB : DB :=
  { users := [7], subjects := [⟨1, ['M']⟩], chapters := [⟨1, 1⟩],
    quizzes := [⟨1, 1, 0⟩], questions := [⟨1, 1, 1⟩], scores := [],
    next_score_id := 1, today := 0 }

/-- A submission answering option 1 everywhere. -/
def raceForm : Nat → Option Str := fun _ => some ['1']

/-- The score row created by `attempt_quiz raceDB 7 1 true raceForm`. -/
def scoreFirst : Score :=
  { id := 1, quiz_id := 1, user_id := 7, time_stamp := 0, total_scored := 1,
    total_questions := 1, answers := some (jsonDumps [(natStr 1, some ['1'])]) }

/-- `raceDB` after that first successful submission. -/
def dbAfterFirst : DB := { raceDB with scores := [scoreFirst], next_score_id := 2 }

/-- `raceDB` with the quiz scheduled for tomorrow. -/
def dbTomorrow : DB := { raceDB with quizzes := [⟨1, 1, 1⟩] }

/-- Two quizzes with one attempt each (a tie on attempt count). -/
def dbPair : DB :=
  { users := [7, 8], subjects := [⟨1, ['M']⟩], chapters := [⟨1, 1⟩],
    quizzes := [⟨1, 1, 0⟩, ⟨2, 1, 0⟩],
    questions := [⟨1, 1, 1⟩, ⟨2, 2, 1⟩],
    scores := [⟨1, 1, 7, 0, 1, 2, none⟩, ⟨2, 2, 8, 0, 2, 2, none⟩],
    next_score_id := 3, today := 0 }

/-- The `get_user_stats` output for user 7 on `raceDB` (no scores, one
quiz). -/
def statsNoScores : UserStats :=
  { avg_percentage := round2e 0,
    completed_quizzes := 0,
    completion_rate := round2e (((0 : Nat) : ℚ) / ((1 : Nat) : ℚ) * 100),
    subject_avg := [] }

/-! ## Theorems -/

/-- The computable floor agrees with the mathematical floor. -/
theorem ratFloor_eq_floor (x : ℚ) : ratFloor x = ⌊x⌋ := by
  rw [Rat.floor_def, ratFloor, Int.fdiv_eq_ediv _ (by positivity)]

/-- `rheInt` on a value whose fractional part is below one half rounds
down. -/
theorem rheInt_down (n : ℤ) (x : ℚ) (h0 : (n : ℚ) ≤ x) (h1 : x - n < 1/2) :
    rheInt x = n := by
  have hf : ⌊x⌋ = n := Int.floor_eq_iff.mpr ⟨h0, by linarith⟩
  simp only [rheInt, ratFloor_eq_floor, hf]
  rw [if_pos h1]

/-- `rheInt` on a value whose fractional part is above one half rounds
up. -/
theorem rheInt_up (n : ℤ) (x : ℚ) (h0 : 1/2 < x - n) (h1 : x < (n : ℚ) + 1) :
    rheInt x = n + 1 := by
  have hf : ⌊x⌋ = n := Int.floor_eq_iff.mpr ⟨by linarith, by linarith⟩
  simp only [rheInt, ratFloor_eq_floor, hf]
  rw [if_neg (by linarith), if_pos h0]

/-- `rheInt` at an exact midpoint with even floor keeps the floor. -/
theorem rheInt_half_even (n : ℤ) (x : ℚ) (h : x - n = 1/2) (he : n % 2 = 0) :
    rheInt x = n := by
  have hf : ⌊x⌋ = n := Int.floor_eq_iff.mpr ⟨by linarith, by linarith⟩
  simp only [rheInt, ratFloor_eq_floor, hf]
  rw [if_neg (by rw [h]; exact lt_irrefl _), if_neg (by rw [h]; exact lt_irrefl _),
    if_pos he]

/-- `rheInt` at an exact midpoint with odd floor rounds up. -/
theorem rheInt_half_odd (n : ℤ) (x : ℚ) (h : x - n = 1/2) (ho : ¬ n % 2 = 0) :
    rheInt x = n + 1 := by
  have hf : ⌊x⌋ = n := Int.floor_eq_iff.mpr ⟨by linarith, by linarith⟩
  simp only [rheInt, ratFloor_eq_floor, hf]
  rw [if_neg (by rw [h]; exact lt_irrefl _), if_neg (by rw [h]; exact lt_irrefl _),
    if_neg ho]

/-- Sanity: rounding fixes zero. -/
theorem round2e_zero : round2e 0 = 0 := by
  rw [round2e, show (0 : ℚ) * 100 = 0 by ring,
    rheInt_down 0 0 (by norm_num) (by norm_num)]
  norm_num

/-- The single-request route factors into its read phase and its write
phase; this is the decomposition the concurrency analysis interleaves. -/
theorem attempt_quiz_as_check_then_insert (db : DB) (u q : Nat) (v : Bool)
    (f : Nat → Option Str) :
    attempt_quiz db u q v f =
      match attemptCheck db u q v f with
      | .ok p => .submitted (attemptInsert db p).1 (attemptInsert db p).2
      | .notFound => .notFound
      | .notAvailable => .notAvailable
      | .alreadyAttempted sid => .alreadyAttempted sid
      | .noQuestions => .noQuestions
      | .renderForm => .renderForm
      | .valueError => .valueError := by
  cases h : attemptCheck db u q v f <;> simp [attempt_quiz, h]

/-- **C3.** `percentage(score)` returns 0 when `totalQuestions == 0` (the
division is guarded), and otherwise returns
`round(totalScored / totalQuestions * 100, 2)`. -/
theorem percentage_zero_guard (s : Score) :
    (s.total_questions = 0 → s.percentage = 0) ∧
    (s.total_questions ≠ 0 →
      s.percentage = round2e ((s.total_scored : ℚ) / (s.total_questions : ℚ) * 100)) := by
  constructor <;> intro h <;> simp [Score.percentage, h]

/-- Witness for C3: a score of 3/0 yields 0, a score of 1/32 yields the
rounded ratio. -/
theorem percentage_zero_guard_witness :
    Score.percentage ⟨1, 1, 1, 0, 3, 0, none⟩ = 0 ∧
    Score.percentage ⟨2, 1, 1, 0, 1, 32, none⟩ =
      round2e (((1 : Int) : ℚ) / ((32 : Int) : ℚ) * 100) :=
  ⟨(percentage_zero_guard _).1 rfl, (percentage_zero_guard _).2 (by decide)⟩

/-- **C10.** `get_answers` on a score whose `answers` column is NULL or the
empty string returns the empty mapping instead of failing. -/
theorem get_answers_falsy_empty :
    (∀ s : Score, s.answers = none → s.get_answers = some []) ∧
    (∀ s : Score, s.answers = some [] → s.get_answers = some []) := by
  constructor <;> intro s h <;> simp [Score.get_answers, h]

/-- Witness for C10 at both falsy column values. -/
theorem get_answers_falsy_empty_witness :
    Score.get_answers ⟨1, 1, 1, 0, 1, 2, none⟩ = some [] ∧
    Score.get_answers ⟨2, 1, 1, 0, 1, 2, some []⟩ = some [] :=
  ⟨get_answers_falsy_empty.1 _ rfl, get_answers_falsy_empty.2 _ rfl⟩

/-- **C4, counterexample.** A score of 1 out of 32 has exact raw percentage
3.125 (an exact binary double, so the float and rational semantics agree);
Python's `round` (half-to-even) gives 3.12 where rounding half-up would give
3.13.  The spec's "rounded half-up" does not match the code. -/
theorem percentage_not_rounded_half_up :
    Score.percentage scoreC4 = 312 / 100 ∧
    roundHalfUp2 ((scoreC4.total_scored : ℚ) / (scoreC4.total_questions : ℚ) * 100) =
      313 / 100 ∧
    Score.percentage scoreC4 ≠
      roundHalfUp2 ((scoreC4.total_scored : ℚ) / (scoreC4.total_questions : ℚ) * 100) := by
  have hraw : (scoreC4.total_scored : ℚ) / (scoreC4.total_questions : ℚ) * 100 = 25/8 := by
    norm_num [scoreC4]
  have h1 : Score.percentage scoreC4 = 312 / 100 := by
    rw [Score.percentage, if_neg (by simp [scoreC4]), hraw, round2e,
      show (25/8 : ℚ) * 100 = 625/2 by norm_num,
      rheInt_half_even 312 (625/2) (by norm_num) (by decide)]
    norm_num
  have h2 : roundHalfUp2
      ((scoreC4.total_scored : ℚ) / (scoreC4.total_questions : ℚ) * 100) = 313 / 100 := by
    rw [hraw, roundHalfUp2, show (25/8 : ℚ) * 100 + 1/2 = ((313 : ℤ) : ℚ) by norm_num,
      ratFloor_eq_floor, Int.floor_intCast]
    norm_num
  exact ⟨h1, h2, by rw [h1, h2]; norm_num⟩

/-- **C1.** Two interleaved submissions for the same (user, quiz) pair that
both run the read phase (duplicate check and grading) against the same
snapshot before either commits: both pass the check, both insert, and two
`Score` rows for the pair exist afterwards.  The code has no uniqueness
constraint on `(quiz_id, user_id)` and no atomic check-and-insert, so the
invariant the claim states does not survive this interleaving. -/
theorem concurrent_submissions_create_duplicate_scores :
    ∃ p1 p2 : Pending,
      attemptCheck raceDB 7 1 true raceForm = .ok p1 ∧
      attemptCheck raceDB 7 1 true raceForm = .ok p2 ∧
      numScoresFor (attemptInsert (attemptInsert raceDB p1).2 p2).2 7 1 = 2 :=
  ⟨⟨7, 1, 1, 1, [(natStr 1, some ['1'])]⟩, ⟨7, 1, 1, 1, [(natStr 1, some ['1'])]⟩,
    by decide, by decide, by decide⟩

/-- **C2, counterexample.** A submitted option that is a nonempty
non-integer string (here `"x"`) makes the grading loop's `int(user_answer)`
raise `ValueError`: the submission fails with an error instead of being
scored as incorrect. -/
theorem invalid_option_raises :
    attempt_quiz raceDB 7 1 true (fun _ => some ['x']) = .valueError := by
  have h : attemptCheck raceDB 7 1 true (fun _ => some ['x']) = .valueError := by decide
  simp [attempt_quiz, h]

/-! ### Inversion and case lemmas for the attempt engine -/

/-- An `attempt_quiz` request reports `notAvailable` exactly when its read
phase does. -/
theorem attempt_quiz_notAvailable_iff (db : DB) (u qz : Nat) (v : Bool)
    (form : Nat → Option Str) :
    attempt_quiz db u qz v form = .notAvailable ↔
      attemptCheck db u qz v form = .notAvailable := by
  cases h : attemptCheck db u qz v form <;> simp [attempt_quiz, h]

/-- An `attempt_quiz` request reports `submitted` exactly when its read phase
succeeds; the new score id is the next auto-increment id and the new state is
the write phase's output. -/
theorem attempt_quiz_submitted_iff (db : DB) (u qz : Nat) (v : Bool)
    (form : Nat → Option Str) (sid : Nat) (db' : DB) :
    attempt_quiz db u qz v form = .submitted sid db' ↔
      ∃ p, attemptCheck db u qz v form = .ok p ∧
        sid = db.next_score_id ∧ db' = (attemptInsert db p).2 := by
  cases h : attemptCheck db u qz v form <;>
    simp [attempt_quiz, h, attemptInsert, eq_comm]

/-- Inversion of a successful read phase: all five guards passed and the
pending record is the graded result. -/
theorem attemptCheck_ok_inv {db : DB} {u qz : Nat} {v : Bool}
    {form : Nat → Option Str} {p : Pending}
    (h : attemptCheck db u qz v form = .ok p) :
    ∃ quiz, quizGet db qz = some quiz ∧ ¬ db.today < quiz.date_of_quiz ∧
      firstScoreFor db u qz = none ∧ (questionsFor db qz).isEmpty = false ∧
      v = true ∧
      ∃ total dict, gradeFold form (questionsFor db qz) 0 [] = some (total, dict) ∧
        p = ⟨u, qz, total, ((questionsFor db qz).length : Int), dict⟩ := by
  rcases hq : quizGet db qz with _ | quiz
  · simp only [attemptCheck, hq] at h
    simp at h
  · simp only [attemptCheck, hq] at h
    by_cases hd : db.today < quiz.date_of_quiz
    · rw [if_pos hd] at h
      simp at h
    · rw [if_neg hd] at h
      rcases hs : firstScoreFor db u qz with _ | s <;> simp only [hs] at h
      · by_cases hq0 : (questionsFor db qz).isEmpty
        · rw [if_pos hq0] at h
          simp at h
        · rw [if_neg hq0] at h
          cases v with
          | false =>
            simp at h
          | true =>
            simp only [if_true] at h
            rcases hg : gradeFold form (questionsFor db qz) 0 [] with _ | td <;>
              simp only [hg] at h
            · simp at h
            · refine ⟨quiz, rfl, hd, rfl, by simpa using hq0, rfl, td.1, td.2,
                by simp [hg], ?_⟩
              have := h.symm
              simp only [CheckResult.ok.injEq] at this
              rw [this]
      · simp at h

/-- The read phase with an already-recorded first score for the pair reports
`alreadyAttempted` with that score's id. -/
theorem attemptCheck_already {db : DB} {u qz : Nat} (v : Bool)
    (form : Nat → Option Str) {quiz : Quiz} {s : Score}
    (hq : quizGet db qz = some quiz) (hd : ¬ db.today < quiz.date_of_quiz)
    (hs : firstScoreFor db u qz = some s) :
    attemptCheck db u qz v form = .alreadyAttempted s.id := by
  simp only [attemptCheck, hq, hs]
  rw [if_neg hd]

/-- **C7.** With the quiz present, starting an attempt fails with
`NotAvailable` exactly when the quiz's scheduled date is strictly in the
future; a quiz scheduled today or earlier passes this check (it can fail
later checks, but never with `NotAvailable`). -/
theorem notAvailable_iff_future (db : DB) (u qz : Nat) (v : Bool)
    (form : Nat → Option Str) (quiz : Quiz) (hq : quizGet db qz = some quiz) :
    attempt_quiz db u qz v form = .notAvailable ↔
      db.today < quiz.date_of_quiz := by
  rw [attempt_quiz_notAvailable_iff]
  simp only [attemptCheck, hq]
  by_cases hd : db.today < quiz.date_of_quiz
  · rw [if_pos hd]
    simp [hd]
  · rw [if_neg hd]
    simp only [hd, iff_false]
    rcases hfs : firstScoreFor db u qz with _ | s <;> simp only [hfs]
    · by_cases hq0 : (questionsFor db qz).isEmpty
      · rw [if_pos hq0]
        simp
      · rw [if_neg hq0]
        cases v
        · simp
        · simp only [if_true]
          rcases hg : gradeFold form (questionsFor db qz) 0 [] with _ | td <;>
            simp [hg]
    · simp

/-- Witness for C7: the quiz scheduled tomorrow is rejected as not yet
available. -/
theorem notAvailable_iff_future_witness :
    attempt_quiz dbTomorrow 7 1 true raceForm = .notAvailable :=
  (notAvailable_iff_future dbTomorrow 7 1 true raceForm ⟨1, 1, 1⟩ (by decide)).mpr
    (by decide)

/-- **C6.** After a successful submission for a (user, quiz) pair, a second
attempt for the same pair fails with `AlreadyAttempted` carrying the id of
the Score the first attempt created (so the caller can redirect to its
results); and every successful submission appends exactly one new Score row,
leaving all existing Score rows untouched (creation is append-only). -/
theorem second_attempt_rejected_append_only :
    (∀ (db : DB) (u qz : Nat) (form : Nat → Option Str) (v : Bool)
        (sid : Nat) (db' : DB),
        attempt_quiz db u qz true form = .submitted sid db' →
        attempt_quiz db' u qz v form = .alreadyAttempted sid) ∧
    (∀ (db : DB) (u qz : Nat) (form : Nat → Option Str) (v : Bool)
        (sid : Nat) (db' : DB),
        attempt_quiz db u qz v form = .submitted sid db' →
        ∃ sc : Score, sc.id = sid ∧ db'.scores = db.scores ++ [sc]) := by
  constructor
  · intro db u qz form v sid db' h
    obtain ⟨p, hck, hsid, hdb'⟩ := (attempt_quiz_submitted_iff db u qz true form sid db').mp h
    obtain ⟨quiz, hq, hd, hfs, -, -, total, dict, hg, hp⟩ := attemptCheck_ok_inv hck
    subst hdb' hsid hp
    have hq' : quizGet (attemptInsert db
        ⟨u, qz, total, ((questionsFor db qz).length : Int), dict⟩).2 qz = some quiz := hq
    have hd' : ¬ (attemptInsert db
        ⟨u, qz, total, ((questionsFor db qz).length : Int), dict⟩).2.today <
        quiz.date_of_quiz := hd
    have hfs' : firstScoreFor (attemptInsert db
        ⟨u, qz, total, ((questionsFor db qz).length : Int), dict⟩).2 u qz =
        some (Score.set_answers
          { id := db.next_score_id, quiz_id := qz, user_id := u,
            time_stamp := db.today, total_scored := total,
            total_questions := ((questionsFor db qz).length : Int),
            answers := none } dict) := by
      show ((db.scores ++ [_]).find? _) = _
      rw [List.find?_append]
      have h0 : db.scores.find?
          (fun s => s.quiz_id = qz && s.user_id = u) = none := hfs
      rw [h0]
      simp [Score.set_answers]
    have hck' := attemptCheck_already v form hq' hd' hfs'
    simp [attempt_quiz, hck', Score.set_answers]
  · intro db u qz form v sid db' h
    obtain ⟨p, hck, hsid, hdb'⟩ := (attempt_quiz_submitted_iff db u qz v form sid db').mp h
    subst hsid hdb'
    exact ⟨_, rfl, rfl⟩

/-- Witness for C6: after user 7's first submission on quiz 1 (creating
Score 1), a second identical request is rejected with the original score's
id, and the first submission only appended its row. -/
theorem second_attempt_rejected_append_only_witness :
    attempt_quiz dbAfterFirst 7 1 true raceForm = .alreadyAttempted 1 ∧
    ∃ sc : Score, sc.id = 1 ∧ dbAfterFirst.scores = raceDB.scores ++ [sc] := by
  have h1 : attempt_quiz raceDB 7 1 true raceForm = .submitted 1 dbAfterFirst := rfl
  exact ⟨second_attempt_rejected_append_only.1 raceDB 7 1 raceForm true 1 dbAfterFirst h1,
    second_attempt_rejected_append_only.2 raceDB 7 1 raceForm true 1 dbAfterFirst h1⟩

/-- The grading loop, in closed form, when every submitted option clears
`int(...)`: the total is the count of questions whose graded value equals
`correct_option`, and the dict records each question's raw submission. -/
theorem gradeFold_eq (form : Nat → Option Str) :
    ∀ (qs : List Question) (t : Int) (d : List (Str × Option Str)),
      (∀ q ∈ qs, answerParses (form q.id) = true) →
      gradeFold form qs t d =
        some (t + ((qs.countP
            (fun q => gradedValue (form q.id) = some q.correct_option)) : Int),
          qs.foldl (fun d q => dictInsert d (natStr q.id) (form q.id)) d) := by
  intro qs
  induction qs with
  | nil =>
    intro t d _
    simp [gradeFold]
  | cons q rest ih =>
    intro t d hok
    have hq := hok q (List.mem_cons_self q rest)
    have hrest : ∀ x ∈ rest, answerParses (form x.id) = true :=
      fun x hx => hok x (List.mem_cons_of_mem _ hx)
    rcases hf : form q.id with _ | s
    · simp only [gradeFold, hf, ih _ _ hrest, List.countP_cons, List.foldl_cons,
        gradedValue, hf]
      simp [gradedValue, hf]
    · by_cases hse : s = []
      · subst hse
        simp only [gradeFold, hf, if_pos rfl, ih _ _ hrest, List.countP_cons,
          List.foldl_cons]
        simp [gradedValue, hf]
      · rcases hp : pyInt s with _ | n
        · simp [answerParses, hf, hse, hp] at hq
        · by_cases hc : n = q.correct_option
          · simp only [gradeFold, hf, if_neg hse, hp, if_pos hc, ih _ _ hrest,
              List.countP_cons, List.foldl_cons]
            have hpred : (decide (gradedValue (some s) = some q.correct_option))
                = true := by
              simp [gradedValue, hse, hp, hc]
            rw [hpred, if_pos rfl]
            simp only [Option.some.injEq, Prod.mk.injEq]
            exact ⟨by omega, trivial⟩
          · simp only [gradeFold, hf, if_neg hse, hp, if_neg hc, ih _ _ hrest,
              List.countP_cons, List.foldl_cons]
            have hpred : (decide (gradedValue (some s) = some q.correct_option))
                = false := by
              simp [gradedValue, hse, hp, hc]
            rw [hpred, if_neg (by simp)]
            simp only [Option.some.injEq, Prod.mk.injEq]
            exact ⟨by omega, trivial⟩

/-- **C2 (amended).** When every submitted option is missing, empty, or a
valid integer literal, the submission succeeds (no error): missing and empty
options are scored as incorrect, and an integer option scores exactly when it
equals `correct_option` — `totalScored` is the count of questions whose
parsed option equals the correct one.  (A nonempty non-integer option instead
raises `ValueError`: see the counterexample.) -/
theorem grading_integer_equality (db : DB) (u qz : Nat) (quiz : Quiz)
    (form : Nat → Option Str)
    (hq : quizGet db qz = some quiz) (hd : ¬ db.today < quiz.date_of_quiz)
    (hs : firstScoreFor db u qz = none)
    (hne : (questionsFor db qz).isEmpty = false)
    (hok : ∀ q ∈ questionsFor db qz, answerParses (form q.id) = true) :
    ∃ db', attempt_quiz db u qz true form = .submitted db.next_score_id db' ∧
      ∃ sc : Score, db'.scores = db.scores ++ [sc] ∧
        sc.total_scored = (((questionsFor db qz).countP
          (fun q => gradedValue (form q.id) = some q.correct_option)) : Int) ∧
        sc.total_questions = ((questionsFor db qz).length : Int) := by
  have hg := gradeFold_eq form (questionsFor db qz) 0 []
  have hck : attemptCheck db u qz true form =
      .ok ⟨u, qz,
        0 + (((questionsFor db qz).countP
          (fun q => gradedValue (form q.id) = some q.correct_option)) : Int),
        ((questionsFor db qz).length : Int),
        (questionsFor db qz).foldl
          (fun d q => dictInsert d (natStr q.id) (form q.id)) []⟩ := by
    simp only [attemptCheck, hq]
    rw [if_neg hd]
    simp only [hs]
    rw [if_neg (by simp [hne])]
    simp only [if_true, hg hok]
  refine ⟨(attemptInsert db _).2,
    (attempt_quiz_submitted_iff db u qz true form db.next_score_id _).mpr
      ⟨_, hck, rfl, rfl⟩, _, rfl, ?_, rfl⟩
  simp [Score.set_answers]

/-- Witness for C2 (amended): user 7 submits option "1" for the one-question
quiz; the attempt succeeds and scores the full count. -/
theorem grading_integer_equality_witness :
    ∃ db', attempt_quiz raceDB 7 1 true raceForm =
        .submitted raceDB.next_score_id db' ∧
      ∃ sc : Score, db'.scores = raceDB.scores ++ [sc] ∧
        sc.total_scored = (((questionsFor raceDB 1).countP
          (fun q => gradedValue (raceForm q.id) = some q.correct_option)) : Int) ∧
        sc.total_questions = ((questionsFor raceDB 1).length : Int) :=
  grading_integer_equality raceDB 7 1 ⟨1, 1, 0⟩ raceForm (by decide) (by decide)
    (by decide) (by decide) (by decide)

/-! ### JSON round-trip lemmas -/

/-- Parsing inverts rendering for one hex digit. -/
theorem hexVal_hexChar : ∀ d < 16, hexVal (hexChar d) = some d := by decide

/-- Parsing inverts rendering for a four-digit hex escape payload. -/
theorem hex4Val_hex4 (n : Nat) (h : n < 65536) :
    hex4Val (hexChar (n / 4096 % 16)) (hexChar (n / 256 % 16))
      (hexChar (n / 16 % 16)) (hexChar (n % 16)) = some n := by
  rw [hex4Val, hexVal_hexChar _ (Nat.mod_lt _ (by norm_num)),
    hexVal_hexChar _ (Nat.mod_lt _ (by norm_num)),
    hexVal_hexChar _ (Nat.mod_lt _ (by norm_num)),
    hexVal_hexChar _ (Nat.mod_lt _ (by norm_num))]
  exact congrArg some (by omega)

/-- The string-body parser ignores its fuel above the input length. -/
theorem parseStrBodyF_fuel :
    ∀ (f1 : Nat) (s : Str) (f2 : Nat), s.length < f1 → s.length < f2 →
      parseStrBodyF f1 s = parseStrBodyF f2 s := by
  intro f1
  induction f1 with
  | zero =>
    intro s f2 h1 _
    omega
  | succ f ih =>
    intro s f2 h1 h2
    cases f2 with
    | zero => omega
    | succ g =>
      cases s with
      | nil => rfl
      | cons c rest =>
        simp only [List.length_cons] at h1 h2
        simp only [parseStrBodyF]
        by_cases hq : c = '"'
        · rw [if_pos hq, if_pos hq]
        · rw [if_neg hq, if_neg hq]
          by_cases hb : c = '\\'
          · rw [if_pos hb, if_pos hb]
            cases rest with
            | nil => rfl
            | cons e rest' =>
              simp only [List.length_cons] at h1 h2
              cases hd : escDecode1 e with
              | some d =>
                simp only [hd]
                rw [ih rest' g (by omega) (by omega)]
              | none =>
                simp only [hd]
                by_cases hu : e = 'u'
                · rw [if_pos hu, if_pos hu]
                  rcases rest' with _ | ⟨x1, _ | ⟨x2, _ | ⟨x3, _ | ⟨x4, rest2⟩⟩⟩⟩
                  · rfl
                  · rfl
                  · rfl
                  · rfl
                  · simp only [List.length_cons] at h1 h2
                    cases hx : hex4Val x1 x2 x3 x4 with
                    | none => simp only [hx]
                    | some n =>
                      simp only [hx]
                      rw [ih rest2 g (by omega) (by omega)]
                · rw [if_neg hu, if_neg hu]
          · rw [if_neg hb, if_neg hb]
            by_cases hlt : c.toNat < 32
            · rw [if_pos hlt, if_pos hlt]
            · rw [if_neg hlt, if_neg hlt]
              rw [ih rest g (by omega) (by omega)]

/-- Parsing a string body that starts with the escape of one BMP character
peels off exactly that character. -/
theorem parseStrBody_escChar (c : Char) (hc : c.toNat < 65536) (rest : Str) :
    parseStrBody (escChar c ++ rest) =
      (parseStrBody rest).map (fun p => (c :: p.1, p.2)) := by
  have hfix2 : parseStrBodyF (rest.length + 1 + 1) rest = parseStrBody rest :=
    parseStrBodyF_fuel _ rest _ (by omega) (by omega)
  by_cases h1 : c = '"'
  · subst h1
    rw [show escChar '"' ++ rest = '\\' :: '"' :: rest from rfl]
    simp [parseStrBody, parseStrBodyF, escDecode1, hfix2]
  by_cases h2 : c = '\\'
  · subst h2
    rw [show escChar '\\' ++ rest = '\\' :: '\\' :: rest from rfl]
    simp [parseStrBody, parseStrBodyF, escDecode1, hfix2]
  by_cases h3 : c = '\x08'
  · subst h3
    rw [show escChar '\x08' ++ rest = '\\' :: 'b' :: rest from rfl]
    simp [parseStrBody, parseStrBodyF, escDecode1, hfix2]
  by_cases h4 : c = '\t'
  · subst h4
    rw [show escChar '\t' ++ rest = '\\' :: 't' :: rest from rfl]
    simp [parseStrBody, parseStrBodyF, escDecode1, hfix2]
  by_cases h5 : c = '\n'
  · subst h5
    rw [show escChar '\n' ++ rest = '\\' :: 'n' :: rest from rfl]
    simp [parseStrBody, parseStrBodyF, escDecode1, hfix2]
  by_cases h6 : c = '\x0c'
  · subst h6
    rw [show escChar '\x0c' ++ rest = '\\' :: 'f' :: rest from rfl]
    simp [parseStrBody, parseStrBodyF, escDecode1, hfix2]
  by_cases h7 : c = '\x0d'
  · subst h7
    rw [show escChar '\x0d' ++ rest = '\\' :: 'r' :: rest from rfl]
    simp [parseStrBody, parseStrBodyF, escDecode1, hfix2]
  by_cases h8 : 32 ≤ c.toNat ∧ c.toNat ≤ 126
  · have he : escChar c = [c] := by
      simp [escChar, h1, h2, h3, h4, h5, h6, h7, h8.1, h8.2]
    rw [he, List.cons_append, List.nil_append]
    simp [parseStrBody, parseStrBodyF, h1, h2, Nat.not_lt.mpr h8.1]
  · have he : escChar c = '\\' :: 'u' :: hex4 c.toNat := by
      have hb : ¬ (32 ≤ c.toNat && c.toNat ≤ 126) = true := by
        simp only [Bool.and_eq_true, decide_eq_true_eq]
        exact fun hh => h8 ⟨hh.1, hh.2⟩
      simp [escChar, h1, h2, h3, h4, h5, h6, h7, hb, hc]
    rw [he]
    have hvn : c.toNat < 55296 ∨ (57344 ≤ c.toNat ∧ c.toNat < 1114112) := c.valid
    have hfix6 : parseStrBodyF (rest.length + 1 + 1 + 1 + 1 + 1 + 1) rest =
        parseStrBody rest :=
      parseStrBodyF_fuel _ rest _ (by omega) (by omega)
    simp only [hex4, List.cons_append, List.nil_append, parseStrBody,
      List.length_cons, parseStrBodyF]
    simp only [if_true, List.append_eq, List.cons_append]
    rw [show escDecode1 'u' = none from rfl]
    dsimp only
    rw [if_neg (by decide : ¬ (('\\' : Char) = '"')), hex4Val_hex4 c.toNat hc]
    simp only [List.nil_append]
    rcases hvn with hlt | hge
    · rw [if_pos hlt, Char.ofNat_toNat, hfix6]
      rfl
    · rw [if_neg (by omega), if_pos ⟨hge.1, hge.2⟩, Char.ofNat_toNat, hfix6]
      rfl

/-- Parsing inverts rendering for a whole string body. -/
theorem parseStrBody_render (s : Str) (hs : ∀ c ∈ s, c.toNat < 65536) (rest : Str) :
    parseStrBody (s.flatMap escChar ++ '"' :: rest) = some (s, rest) := by
  induction s with
  | nil =>
    simp only [List.flatMap_nil, List.nil_append]
    simp [parseStrBody, parseStrBodyF]
  | cons c cs ih =>
    have hc : c.toNat < 65536 := hs c (List.mem_cons_self c cs)
    rw [List.flatMap_cons, List.append_assoc, parseStrBody_escChar c hc,
      ih (fun x hx => hs x (List.mem_cons_of_mem _ hx))]
    rfl

/-- Parsing inverts rendering for an object value (string or `null`). -/
theorem parseVal_render (v : Option Str)
    (hv : ∀ s, v = some s → ∀ c ∈ s, c.toNat < 65536) (rest : Str) :
    parseVal (renderVal v ++ rest) = some (v, rest) := by
  cases v with
  | none => rfl
  | some s =>
    have hsh : renderVal (some s) ++ rest
        = '"' :: (s.flatMap escChar ++ '"' :: rest) := by
      simp [renderVal, renderStr]
    rw [hsh]
    have hunf : parseVal ('"' :: (s.flatMap escChar ++ '"' :: rest))
        = (parseStrBody (s.flatMap escChar ++ '"' :: rest)).map
            (fun p => (some p.1, p.2)) := rfl
    rw [hunf, parseStrBody_render s (hv s rfl) rest]
    rfl

/-- `dropWhile` does not move past a non-whitespace head. -/
theorem dropWhile_nonws (c : Char) (h : isJsonWs c = false) (s : Str) :
    (c :: s).dropWhile isJsonWs = c :: s := by
  rw [List.dropWhile_cons, h]
  rfl

/-- `parseMembers` skips a leading blank. -/
theorem parseMembers_ws (fuel : Nat) (s : Str) :
    parseMembers fuel (' ' :: s) = parseMembers fuel s := by
  cases fuel with
  | zero => rfl
  | succ g =>
    have hdw : (' ' :: s).dropWhile isJsonWs = s.dropWhile isJsonWs := by
      rw [List.dropWhile_cons]
      rfl
    simp only [parseMembers, hdw]

/-- The head of a rendered value is not whitespace, so `dropWhile` fixes a
rendered value followed by anything. -/
theorem dropWhile_renderVal (v : Option Str) (T : Str) :
    (renderVal v ++ T).dropWhile isJsonWs = renderVal v ++ T := by
  cases v with
  | none => exact dropWhile_nonws 'n' (by decide) _
  | some s =>
    have hsh : renderVal (some s) ++ T
        = '"' :: (s.flatMap escChar ++ '"' :: T) := by
      simp [renderVal, renderStr]
    rw [hsh]
    exact dropWhile_nonws '"' (by decide) _

/-- One member step of `parseMembers` over rendered input: consume one
rendered `"key": value`, then dispatch on what follows. -/
theorem parseMembers_step (kv : Str × Option Str) (T : Str) (g : Nat)
    (hk : ∀ c ∈ kv.1, c.toNat < 65536)
    (hv : ∀ s, kv.2 = some s → ∀ c ∈ s, c.toNat < 65536) :
    parseMembers (g + 1) (renderMember kv ++ T) =
      (match T.dropWhile isJsonWs with
       | ',' :: rest4 => (parseMembers g rest4).map (fun p => (kv :: p.1, p.2))
       | '\x7d' :: rest4 => some ([kv], rest4)
       | _ => none) := by
  have hshape : renderMember kv ++ T
      = '"' :: (kv.1.flatMap escChar ++ '"' ::
          (':' :: (' ' :: (renderVal kv.2 ++ T)))) := by
    simp [renderMember, renderStr, List.append_assoc]
  rw [hshape]
  simp only [parseMembers, dropWhile_nonws '"' (by decide)]
  rw [parseStrBody_render kv.1 hk]
  simp only [dropWhile_nonws ':' (by decide)]
  have hdw : (' ' :: (renderVal kv.2 ++ T)).dropWhile isJsonWs
      = renderVal kv.2 ++ T := by
    rw [List.dropWhile_cons, show isJsonWs ' ' = true from rfl]
    exact dropWhile_renderVal kv.2 T
  rw [hdw, parseVal_render kv.2 hv]

/-- Each rendered member contributes at least one character. -/
theorem length_flatMap_members (es : List (Str × Option Str)) :
    es.length ≤ (es.flatMap (fun x => ',' :: ' ' :: renderMember x)).length := by
  induction es with
  | nil => simp
  | cons e es' ih =>
    simp only [List.flatMap_cons, List.length_append, List.length_cons]
    omega

/-- Parsing inverts rendering for a nonempty member list followed by the
closing brace, given sufficient fuel. -/
theorem parseMembers_render (es : List (Str × Option Str)) :
    ∀ (kv : Str × Option Str) (fuel : Nat),
      es.length < fuel →
      (∀ x ∈ kv :: es, (∀ c ∈ x.1, c.toNat < 65536) ∧
        (∀ s, x.2 = some s → ∀ c ∈ s, c.toNat < 65536)) →
      parseMembers fuel
        (renderMember kv ++ (es.flatMap (fun x => ',' :: ' ' :: renderMember x)
          ++ ['\x7d'])) = some (kv :: es, []) := by
  induction es with
  | nil =>
    intro kv fuel hf hall
    cases fuel with
    | zero => omega
    | succ g =>
      have h0 := hall kv (List.mem_cons_self kv [])
      rw [List.flatMap_nil, List.nil_append, parseMembers_step kv ['\x7d'] g h0.1 h0.2]
      rfl
  | cons e es' ih =>
    intro kv fuel hf hall
    cases fuel with
    | zero => omega
    | succ g =>
      have h0 := hall kv (List.mem_cons_self kv (e :: es'))
      rw [List.flatMap_cons, parseMembers_step kv _ g h0.1 h0.2]
      have hsh : ((',' :: ' ' :: renderMember e) ++
            es'.flatMap (fun x => ',' :: ' ' :: renderMember x)) ++ ['\x7d']
          = ',' :: (' ' :: (renderMember e ++
              (es'.flatMap (fun x => ',' :: ' ' :: renderMember x) ++ ['\x7d']))) := by
        simp
      rw [hsh, dropWhile_nonws ',' (by decide)]
      have hlen : es'.length < g := by
        simp only [List.length_cons] at hf
        omega
      rw [show (match (',' :: (' ' :: (renderMember e ++
          (es'.flatMap (fun x => ',' :: ' ' :: renderMember x) ++ ['\x7d'])))
            : Str) with
          | ',' :: rest4 => (parseMembers g rest4).map
              (fun p => ((kv :: p.1 : List (Str × Option Str)), p.2))
          | '\x7d' :: rest4 => some ([kv], rest4)
          | _ => none)
        = (parseMembers g (' ' :: (renderMember e ++
            (es'.flatMap (fun x => ',' :: ' ' :: renderMember x) ++ ['\x7d'])))).map
              (fun p => (kv :: p.1, p.2)) from rfl]
      rw [parseMembers_ws, ih e g hlen
        (fun x hx => hall x (List.mem_cons_of_mem _ hx))]
      rfl

/-- Inserting a fresh key appends it. -/
theorem dictInsert_of_not_mem (d : List (Str × Option Str)) (k : Str) (v : Option Str)
    (h : ¬ k ∈ d.map Prod.fst) :
    dictInsert d k v = d ++ [(k, v)] := by
  induction d with
  | nil => rfl
  | cons e rest ih =>
    simp only [List.map_cons, List.mem_cons] at h
    rw [dictInsert, if_neg (fun hh => h (Or.inl hh.symm)), List.cons_append,
      ih (fun hh => h (Or.inr hh))]

/-- Folding `dictInsert` over members whose keys are fresh and mutually
distinct appends them in order. -/
theorem foldl_dictInsert_append (ms : List (Str × Option Str)) :
    ∀ d : List (Str × Option Str),
      (∀ x ∈ ms, ¬ x.1 ∈ d.map Prod.fst) → (ms.map Prod.fst).Nodup →
      ms.foldl (fun d kv => dictInsert d kv.1 kv.2) d = d ++ ms := by
  induction ms with
  | nil =>
    intro d _ _
    simp
  | cons kv ms' ih =>
    intro d hfresh hnd
    simp only [List.map_cons, List.nodup_cons] at hnd
    rw [List.foldl_cons,
      dictInsert_of_not_mem d kv.1 kv.2 (hfresh kv (List.mem_cons_self kv ms')),
      ih (d ++ [(kv.1, kv.2)]) ?_ hnd.2]
    · simp
    · intro x hx
      simp only [List.map_append, List.mem_append, List.map_cons]
      rintro (hin | hin)
      · exact hfresh x (List.mem_cons_of_mem _ hx) hin
      · simp only [List.map_nil, List.mem_cons, List.not_mem_nil, or_false] at hin
        exact hnd.1 (hin ▸ List.mem_map_of_mem Prod.fst hx)

/-- Rebuilding a dict from members with distinct keys is the identity. -/
theorem dictOfMembers_nodup (ms : List (Str × Option Str))
    (h : (ms.map Prod.fst).Nodup) : dictOfMembers ms = ms := by
  have := foldl_dictInsert_append ms [] (by simp) h
  simpa [dictOfMembers] using this

/-- Master round-trip: `json.loads` inverts `json.dumps` on any answer map
with distinct keys whose characters are unicode scalars below `0x10000`
(every string this application stores satisfies this). -/
theorem jsonLoads_jsonDumps (m : List (Str × Option Str))
    (hk : (m.map Prod.fst).Nodup)
    (hbmp : ∀ x ∈ m, (∀ c ∈ x.1, c.toNat < 65536) ∧
      (∀ s, x.2 = some s → ∀ c ∈ s, c.toNat < 65536)) :
    jsonLoads (jsonDumps m) = some m := by
  cases m with
  | nil => rfl
  | cons kv es =>
    have hR : jsonDumps (kv :: es) = '\x7b' :: (renderMember kv ++
        (es.flatMap (fun x => ',' :: ' ' :: renderMember x) ++ ['\x7d'])) := by
      simp [jsonDumps, List.append_assoc]
    rw [hR]
    have hlen : es.length <
        (renderMember kv ++ (es.flatMap (fun x => ',' :: ' ' :: renderMember x)
          ++ ['\x7d'])).length + 1 := by
      have := length_flatMap_members es
      simp only [List.length_append]
      omega
    have hpm := parseMembers_render es kv _ hlen hbmp
    have hRsh : renderMember kv ++
        (es.flatMap (fun x => ',' :: ' ' :: renderMember x) ++ ['\x7d'])
        = '"' :: (kv.1.flatMap escChar ++ '"' ::
            (':' :: (' ' :: (renderVal kv.2 ++
              (es.flatMap (fun x => ',' :: ' ' :: renderMember x) ++ ['\x7d']))))) := by
      simp [renderMember, renderStr, List.append_assoc]
    rw [hRsh] at hpm
    simp only [jsonLoads, dropWhile_nonws '\x7b' (by decide), hRsh,
      dropWhile_nonws '"' (by decide)]
    rw [hpm]
    show some (dictOfMembers (kv :: es)) = some (kv :: es)
    rw [dictOfMembers_nodup _ hk]

/-! ### Character bounds for everything the grading loop can persist -/

/-- Digit characters are ASCII. -/
theorem isDigitChar_lt_128 (c : Char) (h : isDigitChar c = true) : c.toNat < 128 := by
  simp only [isDigitChar, Bool.and_eq_true, decide_eq_true_eq] at h
  omega

/-- Python whitespace characters are ASCII. -/
theorem isPySpace_lt_128 (c : Char) (h : isPySpace c = true) : c.toNat < 128 := by
  simp only [isPySpace, Bool.or_eq_true, decide_eq_true_eq] at h
  rcases h with ((((h | h) | h) | h) | h) | h <;> subst h <;> decide

/-- Every character of a digit tail that parses is ASCII. -/
theorem pyDigitsAux_chars :
    ∀ (l : Str) (acc : Nat), pyDigitsAux l acc ≠ none → ∀ c ∈ l, c.toNat < 128 := by
  intro l acc h c hc
  induction l, acc using pyDigitsAux.induct with
  | case1 acc => simp at hc
  | case2 acc =>
    simp only [pyDigitsAux, if_pos rfl] at h
    exact absurd rfl h
  | case3 acc c2 rest2 hd ih =>
    simp only [pyDigitsAux, if_pos rfl, if_pos hd] at h
    rcases List.mem_cons.mp hc with rfl | hc2
    · decide
    · rcases List.mem_cons.mp hc2 with rfl | hc3
      · exact isDigitChar_lt_128 c hd
      · exact ih h hc3
  | case4 acc c2 rest2 hd =>
    simp only [pyDigitsAux, if_pos rfl, if_neg hd] at h
    exact absurd rfl h
  | case5 c1 rest acc hu hd ih =>
    rw [pyDigitsAux.eq_def] at h
    simp only [hu, hd, if_true, if_false] at h
    rcases List.mem_cons.mp hc with rfl | hc2
    · exact isDigitChar_lt_128 c hd
    · exact ih h hc2
  | case6 c1 rest acc hu hd =>
    rw [pyDigitsAux.eq_def] at h
    simp only [hu, hd, if_true, if_false] at h
    exact absurd rfl h

/-- Every character of an unsigned literal that parses is ASCII. -/
theorem pyIntDigits_chars (l : Str) (h : pyIntDigits l ≠ none) :
    ∀ c ∈ l, c.toNat < 128 := by
  cases l with
  | nil =>
    intro c hc
    simp at hc
  | cons c0 rest =>
    intro x hx
    simp only [pyIntDigits] at h
    by_cases hd : isDigitChar c0
    · rw [if_pos hd] at h
      rcases List.mem_cons.mp hx with rfl | hxr
      · exact isDigitChar_lt_128 x hd
      · exact pyDigitsAux_chars rest _ h x hxr
    · rw [if_neg hd] at h
      exact absurd rfl h

/-- Decompose a string into its stripped core and the whitespace around
it. -/
theorem mem_strip_parts (s : Str) :
    ∀ c ∈ s, c ∈ s.takeWhile isPySpace ∨ c ∈ pyStrip s ∨
      c ∈ (s.dropWhile isPySpace).reverse.takeWhile isPySpace := by
  intro c hc
  rw [← List.takeWhile_append_dropWhile isPySpace s] at hc
  rcases List.mem_append.mp hc with h | h
  · exact Or.inl h
  · have ht : s.dropWhile isPySpace
        = pyStrip s ++ ((s.dropWhile isPySpace).reverse.takeWhile isPySpace).reverse := by
      calc s.dropWhile isPySpace
          = ((s.dropWhile isPySpace).reverse).reverse := (List.reverse_reverse _).symm
        _ = (((s.dropWhile isPySpace).reverse.takeWhile isPySpace) ++
              ((s.dropWhile isPySpace).reverse.dropWhile isPySpace)).reverse := by
            rw [List.takeWhile_append_dropWhile]
        _ = pyStrip s ++ ((s.dropWhile isPySpace).reverse.takeWhile isPySpace).reverse := by
            rw [List.reverse_append]
            rfl
    rw [ht] at h
    rcases List.mem_append.mp h with h2 | h2
    · exact Or.inr (Or.inl h2)
    · exact Or.inr (Or.inr (List.mem_reverse.mp h2))

/-- Every character of a string accepted by Python `int(...)` is ASCII, so
in particular a unicode scalar below `0x10000`. -/
theorem pyInt_chars (s : Str) (n : Int) (h : pyInt s = some n) :
    ∀ c ∈ s, c.toNat < 128 := by
  intro c hc
  rcases mem_strip_parts s c hc with h1 | h1 | h1
  · exact isPySpace_lt_128 c (List.mem_takeWhile_imp h1)
  · rcases hp : pyStrip s with _ | ⟨c0, rest⟩
    · rw [hp] at h1
      simp at h1
    · rw [hp] at h1
      simp only [pyInt, hp] at h
      by_cases hplus : c0 = '+'
      · rw [if_pos hplus] at h
        have hr : pyIntDigits rest ≠ none := by
          intro hnone
          rw [hnone] at h
          simp at h
        rcases List.mem_cons.mp h1 with rfl | hcr
        · rw [hplus]
          decide
        · exact pyIntDigits_chars rest hr c hcr
      · rw [if_neg hplus] at h
        by_cases hminus : c0 = '-'
        · rw [if_pos hminus] at h
          have hr : pyIntDigits rest ≠ none := by
            intro hnone
            rw [hnone] at h
            simp at h
          rcases List.mem_cons.mp h1 with rfl | hcr
          · rw [hminus]
            decide
          · exact pyIntDigits_chars rest hr c hcr
        · rw [if_neg hminus] at h
          have hr : pyIntDigits (c0 :: rest) ≠ none := by
            intro hnone
            rw [hnone] at h
            simp at h
          exact pyIntDigits_chars (c0 :: rest) hr c h1
  · exact isPySpace_lt_128 c (List.mem_takeWhile_imp h1)

/-! ### Decimal rendering lemmas -/

/-- The decimal rendering worker ignores its fuel above the number. -/
theorem natStrAux_fuel :
    ∀ (f1 n f2 : Nat), n < f1 → n < f2 → natStrAux f1 n = natStrAux f2 n := by
  intro f1
  induction f1 with
  | zero =>
    intro n f2 h1 _
    omega
  | succ f ih =>
    intro n f2 h1 h2
    cases f2 with
    | zero => omega
    | succ g =>
      simp only [natStrAux]
      by_cases hn : n < 10
      · rw [if_pos hn, if_pos hn]
      · rw [if_neg hn, if_neg hn, ih (n / 10) g (by omega) (by omega)]

/-- One-step unfolding of the decimal rendering. -/
theorem natStr_unfold (n : Nat) : natStr n =
    if n < 10 then [digitChar n] else natStr (n / 10) ++ [digitChar (n % 10)] := by
  show natStrAux (n + 1) n = _
  simp only [natStrAux]
  by_cases hn : n < 10
  · rw [if_pos hn, if_pos hn]
  · rw [if_neg hn, if_neg hn,
      natStrAux_fuel n (n / 10) (n / 10 + 1) (by omega) (by omega)]
    rfl

/-- A digit character only depends on the argument mod 10. -/
theorem digitChar_eq_mod (d : Nat) : digitChar d = digitChar (d % 10) := by
  rw [digitChar, digitChar, show d % 10 % 10 = d % 10 by omega]

/-- Digit characters below ten are ASCII. -/
theorem digitChar_small : ∀ k < 10, (digitChar k).toNat < 128 := by decide

/-- All digit characters are ASCII. -/
theorem digitChar_lt_128 (d : Nat) : (digitChar d).toNat < 128 := by
  rw [digitChar_eq_mod]
  exact digitChar_small (d % 10) (by omega)

/-- Every character of `str(n)` is ASCII. -/
theorem natStr_chars (n : Nat) : ∀ c ∈ natStr n, c.toNat < 128 := by
  induction n using Nat.strong_induction_on with
  | _ n ih =>
    rw [natStr_unfold]
    by_cases hn : n < 10
    · rw [if_pos hn]
      intro c hc
      rw [List.mem_singleton] at hc
      subst hc
      exact digitChar_lt_128 n
    · rw [if_neg hn]
      intro c hc
      rcases List.mem_append.mp hc with h | h
      · exact ih (n / 10) (by omega) c h
      · rw [List.mem_singleton] at h
        subst h
        exact digitChar_lt_128 _

/-- Distinct digits render to distinct characters. -/
theorem digitChar_inj : ∀ a < 10, ∀ b < 10, digitChar a = digitChar b → a = b := by
  decide

/-- A decimal rendering is never empty. -/
theorem natStr_ne_nil (n : Nat) : natStr n ≠ [] := by
  rw [natStr_unfold]
  by_cases hn : n < 10
  · simp [hn]
  · simp [hn]

/-- Decimal rendering is injective: distinct ids give distinct keys. -/
theorem natStr_injective : ∀ n m : Nat, natStr n = natStr m → n = m := by
  intro n
  induction n using Nat.strong_induction_on with
  | _ n ih =>
    intro m h
    rw [natStr_unfold n, natStr_unfold m] at h
    by_cases hn : n < 10 <;> by_cases hm : m < 10
    · rw [if_pos hn, if_pos hm] at h
      exact digitChar_inj n hn m hm (by simpa using h)
    · rw [if_pos hn, if_neg hm] at h
      have hl := congrArg List.length h
      simp only [List.length_singleton, List.length_append, List.length_cons,
        List.length_nil] at hl
      exact absurd (List.length_eq_zero.mp (by omega)) (natStr_ne_nil (m / 10))
    · rw [if_neg hn, if_pos hm] at h
      have hl := congrArg List.length h
      simp only [List.length_singleton, List.length_append, List.length_cons,
        List.length_nil] at hl
      exact absurd (List.length_eq_zero.mp (by omega)) (natStr_ne_nil (n / 10))
    · rw [if_neg hn, if_neg hm] at h
      obtain ⟨h1, h2⟩ := List.append_inj' h (by simp)
      have hd : n % 10 = m % 10 :=
        digitChar_inj _ (by omega) _ (by omega) (by simpa using h2)
      have hq : n / 10 = m / 10 := ih (n / 10) (by omega) (m / 10) h1
      omega

/-- **C8.** Serializing an answer map with `set_answers` and reading it back
with `get_answers` returns the same map, including the `null` entries of
unanswered questions, for any map with distinct keys whose characters are
unicode scalars below `0x10000` (every map the grading loop produces
qualifies). -/
theorem set_get_answers_roundtrip (m : List (Str × Option Str)) (sc : Score)
    (hk : (m.map Prod.fst).Nodup)
    (hbmp : ∀ x ∈ m, (∀ c ∈ x.1, c.toNat < 65536) ∧
      ∀ c ∈ x.2.getD [], c.toNat < 65536) :
    (sc.set_answers m).get_answers = some m := by
  have hne : jsonDumps m ≠ [] := by
    cases m <;> simp [jsonDumps]
  have hbmp' : ∀ x ∈ m, (∀ c ∈ x.1, c.toNat < 65536) ∧
      (∀ s, x.2 = some s → ∀ c ∈ s, c.toNat < 65536) := by
    intro x hx
    refine ⟨(hbmp x hx).1, ?_⟩
    intro s hs c hcs
    have h2 := (hbmp x hx).2
    rw [hs] at h2
    exact h2 c hcs
  simp only [Score.set_answers, Score.get_answers]
  rw [if_neg hne, jsonLoads_jsonDumps m hk hbmp']

/-- Witness for C8: a two-entry map with one answered and one unanswered
question round-trips. -/
theorem set_get_answers_roundtrip_witness :
    (Score.set_answers ⟨1, 1, 7, 0, 1, 2, none⟩
        [(['1'], some ['2']), (['2'], none)]).get_answers
      = some [(['1'], some ['2']), (['2'], none)] :=
  set_get_answers_roundtrip _ _ (by decide) (by decide)

/-- If the grading loop completed, every submitted option cleared
`int(...)`. -/
theorem gradeFold_parses (form : Nat → Option Str) :
    ∀ (qs : List Question) (t : Int) (d : List (Str × Option Str))
      (r : Int × List (Str × Option Str)),
      gradeFold form qs t d = some r →
      ∀ q ∈ qs, answerParses (form q.id) = true := by
  intro qs
  induction qs with
  | nil =>
    intro t d r _ q hq
    simp at hq
  | cons q0 rest ih =>
    intro t d r h q hq
    rcases hf : form q0.id with _ | s
    · simp only [gradeFold, hf] at h
      rcases List.mem_cons.mp hq with rfl | hqr
      · simp [answerParses, hf]
      · exact ih _ _ _ h q hqr
    · by_cases hse : s = []
      · subst hse
        simp only [gradeFold, hf, if_pos rfl] at h
        rcases List.mem_cons.mp hq with rfl | hqr
        · simp [answerParses, hf]
        · exact ih _ _ _ h q hqr
      · rcases hp : pyInt s with _ | n
        · simp only [gradeFold, hf, if_neg hse, hp] at h
          exact absurd h (by simp)
        · simp only [gradeFold, hf, if_neg hse, hp] at h
          rcases List.mem_cons.mp hq with rfl | hqr
          · simp [answerParses, hf, hse, hp]
          · exact ih _ _ _ h q hqr

/-- The grading dict is the per-question list of (rendered id, raw
submission) pairs, once the rendered keys are distinct. -/
theorem gradeDict_eq_map (form : Nat → Option Str) (qs : List Question)
    (hnd : (qs.map (fun q => natStr q.id)).Nodup) :
    qs.foldl (fun d q => dictInsert d (natStr q.id) (form q.id)) []
      = qs.map (fun q => (natStr q.id, form q.id)) := by
  have h1 : qs.foldl (fun d q => dictInsert d (natStr q.id) (form q.id)) []
      = (qs.map (fun q => (natStr q.id, form q.id))).foldl
          (fun d kv => dictInsert d kv.1 kv.2) [] := by
    rw [List.foldl_map]
  rw [h1, foldl_dictInsert_append _ [] (by simp) ?_]
  · simp
  · simpa [List.map_map, Function.comp] using hnd

/-- `answerParses` restricts the characters a stored value can contain. -/
theorem answerParses_chars (a : Option Str) (h : answerParses a = true) :
    ∀ c ∈ a.getD [], c.toNat < 65536 := by
  rcases a with _ | s
  · intro c hc
    simp at hc
  · by_cases hse : s = []
    · subst hse
      intro c hc
      simp at hc
    · rw [answerParses, if_neg hse] at h
      obtain ⟨n, hn⟩ := Option.isSome_iff_exists.mp h
      intro c hc
      exact lt_trans (pyInt_chars s n hn c hc) (by norm_num)

/-- **C9.** Every Score created by a successful submission satisfies
`0 ≤ total_scored ≤ total_questions`, `total_questions` is the number of the
quiz's questions at submission time, and the stored answer map has exactly
one entry per question, keyed by the question's id rendered in decimal, in
question order, holding the raw submitted value. -/
theorem submitted_score_invariants (db : DB) (u qz : Nat)
    (form : Nat → Option Str) (sid : Nat) (db' : DB)
    (hnd : ((questionsFor db qz).map Question.id).Nodup)
    (h : attempt_quiz db u qz true form = .submitted sid db') :
    ∃ sc : Score, db'.scores = db.scores ++ [sc] ∧
      0 ≤ sc.total_scored ∧ sc.total_scored ≤ sc.total_questions ∧
      sc.total_questions = ((questionsFor db qz).length : Int) ∧
      sc.get_answers = some ((questionsFor db qz).map
        (fun q => (natStr q.id, form q.id))) := by
  obtain ⟨p, hck, hsid, hdb'⟩ := (attempt_quiz_submitted_iff db u qz true form sid db').mp h
  obtain ⟨quiz, hq, hd, hfs, hne, -, total, dict, hg, hp⟩ := attemptCheck_ok_inv hck
  subst hdb' hp
  have hok : ∀ q ∈ questionsFor db qz, answerParses (form q.id) = true :=
    gradeFold_parses form _ _ _ _ hg
  have hg2 := gradeFold_eq form (questionsFor db qz) 0 [] hok
  rw [hg] at hg2
  simp only [Option.some.injEq, Prod.mk.injEq] at hg2
  have hndr : ((questionsFor db qz).map (fun q => natStr q.id)).Nodup := by
    have : (questionsFor db qz).map (fun q => natStr q.id)
        = ((questionsFor db qz).map Question.id).map natStr := by
      rw [List.map_map]
      rfl
    rw [this]
    exact hnd.map (fun a b hab => natStr_injective a b hab)
  have hdict : dict = (questionsFor db qz).map (fun q => (natStr q.id, form q.id)) := by
    rw [hg2.2]
    exact gradeDict_eq_map form _ hndr
  have hkeys : (dict.map Prod.fst).Nodup := by
    rw [hdict, List.map_map]
    exact hndr
  have hbmp : ∀ x ∈ dict, (∀ c ∈ x.1, c.toNat < 65536) ∧
      (∀ s, x.2 = some s → ∀ c ∈ s, c.toNat < 65536) := by
    intro x hx
    rw [hdict] at hx
    obtain ⟨q, hqm, rfl⟩ := List.mem_map.mp hx
    constructor
    · intro c hc
      exact lt_trans (natStr_chars q.id c hc) (by norm_num)
    · intro s hs c hc
      have hs2 : form q.id = some s := hs
      have h2 := answerParses_chars (form q.id) (hok q hqm)
      rw [hs2] at h2
      exact h2 c hc
  have hga : (Score.set_answers
      { id := db.next_score_id, quiz_id := qz, user_id := u,
        time_stamp := db.today, total_scored := total,
        total_questions := ((questionsFor db qz).length : Int),
        answers := none } dict).get_answers = some dict := by
    have hne2 : jsonDumps dict ≠ [] := by
      cases dict <;> simp [jsonDumps]
    simp only [Score.set_answers, Score.get_answers]
    rw [if_neg hne2, jsonLoads_jsonDumps dict hkeys hbmp]
  refine ⟨_, rfl, ?_, ?_, ?_, ?_⟩
  · have h1 := hg2.1
    simp only [Score.set_answers]
    omega
  · have h1 := hg2.1
    have h2 : (questionsFor db qz).countP
        (fun q => gradedValue (form q.id) = some q.correct_option)
        ≤ (questionsFor db qz).length := List.countP_le_length _
    simp only [Score.set_answers]
    omega
  · rfl
  · rw [hga, hdict]

/-- Witness for C9: the first submission on `raceDB` appends one Score
with bounded total, the question count, and the fully recoverable answer
map. -/
theorem submitted_score_invariants_witness :
    ∃ sc : Score, dbAfterFirst.scores = raceDB.scores ++ [sc] ∧
      0 ≤ sc.total_scored ∧ sc.total_scored ≤ sc.total_questions ∧
      sc.total_questions = ((questionsFor raceDB 1).length : Int) ∧
      sc.get_answers = some ((questionsFor raceDB 1).map
        (fun q => (natStr q.id, raceForm q.id))) :=
  submitted_score_invariants raceDB 7 1 raceForm 1 dbAfterFirst (by decide) rfl

/-- `statLE` is transitive. -/
theorem statLE_trans (a b c : QuizStat) (hab : statLE a b = true)
    (hbc : statLE b c = true) : statLE a c = true := by
  simp only [statLE, decide_eq_true_eq] at *
  omega

/-- `statLE` is total. -/
theorem statLE_total (a b : QuizStat) : (statLE a b || statLE b a) = true := by
  simp only [statLE, Bool.or_eq_true, decide_eq_true_eq]
  omega

/-- Stability of the ranking: within one attempt-count class the sort keeps
the original order, so filtering the sorted list to a class gives exactly
the filtered input. -/
theorem filter_mergeSort_statLE (l : List QuizStat) (k : Nat) :
    (l.mergeSort statLE).filter (fun e => e.attempts = k)
      = l.filter (fun e => e.attempts = k) := by
  have hp : ∀ a ∈ l.filter (fun e => decide (e.attempts = k)),
      decide (a.attempts = k) = true := by
    intro a ha
    exact (List.mem_filter.mp ha).2
  have hpw : (l.filter (fun e => e.attempts = k)).Pairwise
      (fun a b => statLE a b = true) := by
    apply List.pairwise_of_forall_mem_list
    intro a ha b hb
    have ha2 := List.of_mem_filter ha
    have hb2 := List.of_mem_filter hb
    simp only [decide_eq_true_eq] at ha2 hb2
    simp only [statLE, decide_eq_true_eq]
    omega
  have h1 : (l.filter (fun e => e.attempts = k)).Sublist (l.mergeSort statLE) :=
    List.sublist_mergeSort statLE_trans statLE_total hpw (List.filter_sublist l)
  have h2 : (l.filter (fun e => e.attempts = k)).Sublist
      ((l.mergeSort statLE).filter (fun e => e.attempts = k)) := by
    have h3 := List.Sublist.filter (fun e => decide (e.attempts = k)) h1
    rwa [List.filter_eq_self.mpr hp] at h3
  have hperm : ((l.mergeSort statLE).filter (fun e => e.attempts = k)).Perm
      (l.filter (fun e => e.attempts = k)) :=
    List.Perm.filter _ (l.mergeSort_perm statLE)
  exact (h2.eq_of_length hperm.length_eq.symm).symm

/-- What one `quiz_stats` entry records about its quiz's scores. -/
theorem quizStatFor_spec (db : DB) (qz : Quiz) :
    (quizStatFor db qz).quiz_id = qz.id ∧
    (quizStatFor db qz).attempts
      = (db.scores.filter (fun s => s.quiz_id = qz.id)).length ∧
    ((db.scores.filter (fun s => s.quiz_id = qz.id)).length = 0 →
      (quizStatFor db qz).avg_score = 0) ∧
    ((db.scores.filter (fun s => s.quiz_id = qz.id)).length ≠ 0 →
      (quizStatFor db qz).avg_score = round2e
        (((db.scores.filter (fun s => s.quiz_id = qz.id)).map
            Score.percentage).sum
          / ((db.scores.filter (fun s => s.quiz_id = qz.id)).length : ℚ))) := by
  simp only [quizStatFor]
  by_cases h : (db.scores.filter (fun s => s.quiz_id = qz.id)).isEmpty
  · have h0 : db.scores.filter (fun s => s.quiz_id = qz.id) = [] :=
      List.isEmpty_iff.mp h
    refine ⟨trivial, ?_, ?_, ?_⟩ <;> simp [h, h0, round2e_zero]
  · have h0 : (db.scores.filter (fun s => s.quiz_id = qz.id)).length ≠ 0 := by
      rw [Ne, List.length_eq_zero]
      exact fun hc => h (List.isEmpty_iff.mpr hc)
    refine ⟨trivial, ?_, ?_, ?_⟩ <;> simp [h, h0]

/-- **C5.** The admin dashboard's `quiz_stats` has at most 5 entries, is
ranked by attempt count descending, the ranking is stable (the output is
the 5-entry prefix of a sorted permutation of the full per-quiz list that
agrees with the original order inside every attempt-count class), and each
entry carries its quiz's score count as `attempts` and the mean of
`percentage()` over those scores rounded to two decimals as `avg_score`,
`0` when the quiz has no scores. -/
theorem dashboard_quiz_stats (db : DB) :
    (get_dashboard_stats db).quiz_stats.length ≤ 5 ∧
    (get_dashboard_stats db).quiz_stats.Pairwise
      (fun a b => b.attempts ≤ a.attempts) ∧
    (∃ L : List QuizStat,
      (get_dashboard_stats db).quiz_stats = L.take 5 ∧
      L.Perm (db.quizzes.map (quizStatFor db)) ∧
      L.Pairwise (fun a b => b.attempts ≤ a.attempts) ∧
      ∀ k : Nat, L.filter (fun e => e.attempts = k)
        = (db.quizzes.map (quizStatFor db)).filter
            (fun e => e.attempts = k)) ∧
    ∀ e ∈ (get_dashboard_stats db).quiz_stats, ∃ qz ∈ db.quizzes,
      e.quiz_id = qz.id ∧
      e.attempts = (db.scores.filter (fun s => s.quiz_id = qz.id)).length ∧
      ((db.scores.filter (fun s => s.quiz_id = qz.id)).length = 0 →
        e.avg_score = 0) ∧
      ((db.scores.filter (fun s => s.quiz_id = qz.id)).length ≠ 0 →
        e.avg_score = round2e
          (((db.scores.filter (fun s => s.quiz_id = qz.id)).map
              Score.percentage).sum
            / ((db.scores.filter (fun s => s.quiz_id = qz.id)).length : ℚ))) := by
  have hsorted : ((db.quizzes.map (quizStatFor db)).mergeSort statLE).Pairwise
      (fun a b => b.attempts ≤ a.attempts) := by
    have h := List.sorted_mergeSort statLE_trans statLE_total
      (db.quizzes.map (quizStatFor db))
    refine h.imp ?_
    intro a b hab
    simpa only [statLE, decide_eq_true_eq] using hab
  refine ⟨?_, ?_, ?_, ?_⟩
  · simp only [get_dashboard_stats]
    exact List.length_take_le 5 _
  · exact List.Pairwise.sublist (List.take_sublist 5 _) hsorted
  · exact ⟨(db.quizzes.map (quizStatFor db)).mergeSort statLE, rfl,
      (db.quizzes.map (quizStatFor db)).mergeSort_perm statLE, hsorted,
      fun k => filter_mergeSort_statLE _ k⟩
  · intro e he
    have he2 : e ∈ (db.quizzes.map (quizStatFor db)).mergeSort statLE :=
      List.mem_of_mem_take he
    rw [List.mem_mergeSort] at he2
    obtain ⟨qz, hqm, rfl⟩ := List.mem_map.mp he2
    exact ⟨qz, hqm, quizStatFor_spec db qz⟩

/-- **C4 (amended).** Every percentage value the statistics produce is an
exact multiple of one hundredth obtained by Python `round(_, 2)`, whose
tie-breaking is half-to-even rather than half-up: `round2e` always lands on
`n / 100` for an integer `n`; an exact midpoint between consecutive
hundredths rounds to the even hundredth; `percentage()` is `round2e` of the
raw ratio whenever `total_questions ≠ 0`; and every `avg_score`,
`avg_percentage`, `completion_rate` and per-subject average is in the image
of `round2e`. -/
theorem stats_rounded_half_even :
    (∀ x : ℚ, ∃ n : ℤ, round2e x = (n : ℚ) / 100) ∧
    (∀ m : ℤ, round2e ((m : ℚ) / 100 + 1 / 200)
        = ((if m % 2 = 0 then m else m + 1 : ℤ) : ℚ) / 100 ∧
      (if m % 2 = 0 then m else m + 1) % 2 = 0) ∧
    (∀ sc : Score, sc.total_questions ≠ 0 →
      sc.percentage
        = round2e ((sc.total_scored : ℚ) / (sc.total_questions : ℚ) * 100)) ∧
    (∀ (db : DB) (qz : Quiz),
      ∃ r : ℚ, (quizStatFor db qz).avg_score = round2e r) ∧
    (∀ (db : DB) (uid : Nat) (st : UserStats),
      get_user_stats db uid = some st →
      (∃ r : ℚ, st.avg_percentage = round2e r) ∧
      (∃ r : ℚ, st.completion_rate = round2e r) ∧
      ∀ kv ∈ st.subject_avg, ∃ r : ℚ, kv.2 = round2e r) := by
  refine ⟨?_, ?_, ?_, ?_, ?_⟩
  · intro x
    exact ⟨rheInt (x * 100), rfl⟩
  · intro m
    have hx : ((m : ℚ) / 100 + 1 / 200) * 100 - (m : ℚ) = 1 / 2 := by ring
    by_cases hm : m % 2 = 0
    · rw [if_pos hm]
      exact ⟨by rw [round2e, rheInt_half_even m _ hx hm], hm⟩
    · rw [if_neg hm]
      refine ⟨by rw [round2e, rheInt_half_odd m _ hx hm], ?_⟩
      omega
  · intro sc h
    rw [Score.percentage, if_neg h]
  · intro db qz
    exact ⟨_, rfl⟩
  · intro db uid st hst
    simp only [get_user_stats, Option.map_eq_some'] at hst
    obtain ⟨groups, hg, hst2⟩ := hst
    subst hst2
    refine ⟨⟨_, rfl⟩, ?_, ?_⟩
    · by_cases h5 : 0 < db.quizzes.length
      · exact ⟨_, if_pos h5⟩
      · exact ⟨0, by rw [if_neg h5, round2e_zero]⟩
    · intro kv hkv
      obtain ⟨g, hgm, rfl⟩ := List.mem_map.mp hkv
      by_cases h6 : 0 < g.2.2
      · exact ⟨_, if_pos h6⟩
      · exact ⟨0, by rw [if_neg h6, round2e_zero]⟩

/-- Witness for C4: the exact midpoint `3.125` rounds down to the even
hundredth `3.12`, `percentage()` of 1-of-32 is `round2e` of its raw ratio,
and the no-score user statistics on `raceDB` are in the image of
`round2e`. -/
theorem stats_rounded_half_even_witness :
    (round2e (((3 : ℤ) : ℚ) / 100 + 1 / 200) = ((4 : ℤ) : ℚ) / 100) ∧
    scoreC4.total_questions ≠ 0 ∧
    scoreC4.percentage
      = round2e ((scoreC4.total_scored : ℚ) / (scoreC4.total_questions : ℚ) * 100) ∧
    get_user_stats raceDB 7 = some statsNoScores ∧
    (∃ r : ℚ, statsNoScores.avg_percentage = round2e r) := by
  have hmid := (stats_rounded_half_even).2.1 3
  have hsc := (stats_rounded_half_even).2.2.1 scoreC4 (by decide)
  have hus := (stats_rounded_half_even).2.2.2.2 raceDB 7 statsNoScores rfl
  refine ⟨?_, by decide, hsc, rfl, hus.1⟩
  rw [hmid.1]
  norm_num

/-- Witness for C5: the two-quiz state `dbPair` yields a short, descending
`quiz_stats` list. -/
theorem dashboard_quiz_stats_witness :
    (get_dashboard_stats dbPair).quiz_stats.length ≤ 5 ∧
    (get_dashboard_stats dbPair).quiz_stats.Pairwise
      (fun a b => b.attempts ≤ a.attempts) :=
  ⟨(dashboard_quiz_stats dbPair).1, (dashboard_quiz_stats dbPair).2.1⟩

end QuizMaster
